import Mathlib

/-!
Verification of the ChaCha20-Poly1305 AEAD construction
(src/aead/chacha20_poly1305.rs).

Bytes are modelled as natural numbers (XOR is `Nat.xor`; the XOR round-trip
argument needs no range bound) and buffers as lists of bytes.  The ChaCha20
stream cipher and the Poly1305 MAC are external collaborators of the
construction (their sources are not part of this repository slice), so they
are modelled abstractly: the cipher as an arbitrary block-keystream function
and the MAC as an arbitrary finishing function applied to the ordered
transcript of 16-byte blocks fed to it.  Everything the construction itself
does — counter discipline, padding, block ordering, the overlapping open,
the final length block — is translated from the source.
-/

namespace ChaCha20Poly1305

/-- A byte, modelled as a natural number. -/
abbrev Byte := Nat

/-- A byte buffer. -/
abbrev Bytes := List Nat

/-- The 16-byte block length shared by the cipher granule and the MAC
(`BLOCK_LEN` in the source). -/
def BLOCK_LEN : Nat := 16

/-- A 16-byte block (`Block` in the source), as a byte list. -/
abbrev Block := List Nat

/-- Modelled from the spec: the Block primitive supports zero-fill
(`Block::zero`). -/
def Block.zero : Block := List.replicate BLOCK_LEN 0

/-- Modelled from the spec: the Block primitive supports partial-copy-from-slice
(`Block::partial_copy_from` in the source): the slice is copied into the front
of the block, the remaining bytes of the block are kept. -/
def Block.copy_from_front (b : Block) (s : Bytes) : Block :=
  s ++ b.drop s.length

/-- Modelled from the spec: the Stream Cipher Primitive is an external
collaborator.  `ks key nonce ctr i` is byte `i` (0 ≤ i < 64) of the 64-byte
keystream block produced for block counter `ctr` under `key` and `nonce`. -/
abbrev Keystream := Bytes → Bytes → Nat → Nat → Nat

/-- Byte `i` of the keystream that starts at block counter `ctr`: block
`ctr + i / 64`, byte `i % 64` within the block. -/
def ksAt (ks : Keystream) (key nonce : Bytes) (ctr i : Nat) : Nat :=
  ks key nonce (ctr + i / 64) (i % 64)

/-- The 32-bit block counter combined with the 96-bit nonce
(`Counter` in the source).  Modelled from the spec: a per-call counter whose
block 0 is reserved for MAC key derivation. -/
structure Counter where
  nonce : Bytes
  value : Nat
deriving DecidableEq, Repr

/-- A fixed cipher input: nonce plus a block counter value (`Iv` in the
source). -/
structure Iv where
  nonce : Bytes
  value : Nat
deriving DecidableEq, Repr

/-- `Counter::zero(nonce)`: the counter starts at block 0. -/
def Counter.zero (nonce : Bytes) : Counter := ⟨nonce, 0⟩

/-- `counter.increment()`: returns the current value as an `Iv` and advances
the counter by one. -/
def Counter.increment (c : Counter) : Iv × Counter :=
  (⟨c.nonce, c.value⟩, ⟨c.nonce, c.value + 1⟩)

/-- `chacha::CounterOrIv`: the cipher primitive accepts either a live counter
or a fixed Iv. -/
inductive CounterOrIv where
  | counter : Counter → CounterOrIv
  | iv : Iv → CounterOrIv

/-- The nonce of a `CounterOrIv`. -/
def CounterOrIv.nonce : CounterOrIv → Bytes
  | CounterOrIv.counter c => c.nonce
  | CounterOrIv.iv i => i.nonce

/-- The starting block value of a `CounterOrIv`. -/
def CounterOrIv.value : CounterOrIv → Nat
  | CounterOrIv.counter c => c.value
  | CounterOrIv.iv i => i.value

/-- XOR the keystream for block counter `ctr` into a buffer, the buffer's
first byte sitting at stream position `i`. -/
def xorStream (ks : Keystream) (key nonce : Bytes) (ctr : Nat) :
    Nat → Bytes → Bytes
  | _, [] => []
  | i, b :: rest =>
    (b ^^^ ksAt ks key nonce ctr i) :: xorStream ks key nonce ctr (i + 1) rest

/-- Modelled from the spec: `chacha::chacha20_xor_in_place` XORs the keystream
starting at the given block counter into the buffer, in place. -/
def chacha20_xor_in_place (ks : Keystream) (key : Bytes) (ci : CounterOrIv)
    (buf : Bytes) : Bytes :=
  xorStream ks key ci.nonce ci.value 0 buf

/-- Modelled from the spec: `chacha::chacha20_xor_overlapping` reads
ciphertext starting at offset `p` of the buffer and writes the XOR with the
keystream starting at offset 0 of the same buffer (forward overlap).  Only
the region `[0, buf.length - p)` is specified on exit; the model keeps the
original trailing bytes in the unspecified tail so the length is preserved. -/
def chacha20_xor_overlapping (ks : Keystream) (key : Bytes) (c : Counter)
    (buf : Bytes) (p : Nat) : Bytes :=
  xorStream ks key c.nonce c.value 0 (buf.drop p)
    ++ buf.drop (buf.length - p)

/-- Modelled from the spec: the MAC Primitive is an external collaborator
producing a 128-bit tag from its one-time key and the ordered sequence of
16-byte blocks fed to it.  `fin otk blocks` is that tag. -/
abbrev MacFinish := Bytes → List Block → Bytes

/-- `poly1305::Context`: the MAC state, modelled as the one-time key plus the
transcript of blocks fed so far. -/
structure Poly1305Context where
  otk : Bytes
  transcript : List Block
deriving DecidableEq, Repr

/-- `poly1305::Context::from_key`: a fresh MAC state. -/
def Poly1305Context.from_key (k : Bytes) : Poly1305Context := ⟨k, []⟩

/-- Split a buffer into consecutive 16-byte chunks (the whole-block feed
granule; the construction only calls this on multiples of 16 bytes). -/
def chunks16 (l : Bytes) : List Block :=
  if h : l = [] then [] else l.take BLOCK_LEN :: chunks16 (l.drop BLOCK_LEN)
termination_by l.length
decreasing_by
  simp only [List.length_drop]
  exact Nat.sub_lt (List.length_pos.mpr h) (by norm_num [BLOCK_LEN])

/-- `ctx.update_blocks(data)`: feed whole 16-byte blocks (the caller
guarantees `data.length % 16 = 0`). -/
def Poly1305Context.update_blocks (ctx : Poly1305Context) (data : Bytes) :
    Poly1305Context :=
  { ctx with transcript := ctx.transcript ++ chunks16 data }

/-- `ctx.update_block(block, Pad::Pad)`: feed a single 16-byte block. -/
def Poly1305Context.update_block (ctx : Poly1305Context) (b : Block) :
    Poly1305Context :=
  { ctx with transcript := ctx.transcript ++ [b] }

/-- `ctx.finish()`: the tag, produced by the abstract MAC from the one-time
key and the transcript. -/
def Poly1305Context.finish (fin : MacFinish) (ctx : Poly1305Context) : Bytes :=
  fin ctx.otk ctx.transcript

/-- `poly1305_update_padded_16` from the source: feed `input` in whole
16-byte chunks, then, if a remainder exists, feed one extra block holding the
remainder copied into a zeroed scratch block. -/
def poly1305_update_padded_16 (ctx : Poly1305Context) (input : Bytes) :
    Poly1305Context :=
  let remainder_len := input.length % BLOCK_LEN
  let whole_len := input.length - remainder_len
  let ctx1 :=
    if whole_len > 0 then ctx.update_blocks (input.take whole_len) else ctx
  if remainder_len > 0 then
    ctx1.update_block (Block.copy_from_front Block.zero (input.drop whole_len))
  else ctx1

/-- `poly1305::KEY_BLOCKS`: the one-time key spans two 16-byte blocks. -/
def KEY_BLOCKS : Nat := 2

/-- `derive_poly1305_key` from the source: XOR the keystream at the given Iv
into two zeroed blocks; the 32 resulting bytes are the MAC's one-time key. -/
def derive_poly1305_key (ks : Keystream) (chacha_key : Bytes) (iv : Iv) :
    Bytes :=
  chacha20_xor_in_place ks chacha_key (.iv iv)
    (List.replicate (KEY_BLOCKS * BLOCK_LEN) 0)

/-- Little-endian encoding of a 64-bit length (`LittleEndian::from(u64)`). -/
def le64 (n : Nat) : Bytes :=
  (List.range 8).map fun j => n / 256 ^ j % 256

/-- `Block::from_u64_le(lo, hi)`: a 16-byte block of two little-endian 64-bit
integers. -/
def Block.from_u64_le (lo hi : Nat) : Block := le64 lo ++ le64 hi

/-- `chacha::KEY_LEN`: modelled from the spec, the 256-bit key is 32 bytes. -/
def KEY_LEN : Nat := 32

/-- `chacha::Key`: the 256-bit ChaCha20 key. -/
structure Key where
  bytes : Bytes
deriving DecidableEq, Repr

/-- `aead::KeyInner` restricted to the variant this module produces. -/
inductive KeyInner where
  | ChaCha20Poly1305 : Key → KeyInner
deriving DecidableEq, Repr

/-- `Direction` from the source: a two-variant choice, opening carries the
input prefix length. -/
inductive Direction where
  | Sealing : Direction
  | Opening : Nat → Direction
deriving DecidableEq, Repr

/-- Rust slice indexing `&buf[p..]`: in bounds it yields the suffix, out of
bounds the program aborts with a panic (modelled as `none`). -/
def sliceFrom (l : Bytes) (p : Nat) : Option Bytes :=
  if p ≤ l.length then some (l.drop p) else none

/-- The shared `aead` routine from the source.  Returns the mutated buffer
and the tag; `none` models an aborting out-of-bounds slice panic. -/
def aead (ks : Keystream) (fin : MacFinish) (key : KeyInner) (nonce ad : Bytes)
    (in_out : Bytes) (direction : Direction) : Option (Bytes × Bytes) :=
  match key with
  | KeyInner.ChaCha20Poly1305 chacha20_key =>
    let counter0 := Counter.zero nonce
    let (iv, counter) := counter0.increment
    let ctx := Poly1305Context.from_key
      (derive_poly1305_key ks chacha20_key.bytes iv)
    let ctx := poly1305_update_padded_16 ctx ad
    match direction with
    | Direction.Opening in_prefix_len =>
      match sliceFrom in_out in_prefix_len with
      | none => none
      | some ct =>
        let ctx := poly1305_update_padded_16 ctx ct
        let in_out1 :=
          chacha20_xor_overlapping ks chacha20_key.bytes counter in_out
            in_prefix_len
        let in_out_len := in_out.length - in_prefix_len
        let ctx := ctx.update_block (Block.from_u64_le ad.length in_out_len)
        some (in_out1, ctx.finish fin)
    | Direction.Sealing =>
      let in_out1 :=
        chacha20_xor_in_place ks chacha20_key.bytes (.counter counter) in_out
      let ctx := poly1305_update_padded_16 ctx in_out1
      let ctx := ctx.update_block (Block.from_u64_le ad.length in_out.length)
      some (in_out1, ctx.finish fin)

/-- `error::Unspecified` is deliberately non-descriptive; it carries no
detail, so it is modelled as `Unit`. -/
abbrev Unspecified := Unit

/-- `chacha20_poly1305_init` from the source: succeeds exactly when the key
slice is 32 bytes long. -/
def chacha20_poly1305_init (key : Bytes) : Except Unspecified KeyInner :=
  if key.length = KEY_LEN then
    Except.ok (KeyInner.ChaCha20Poly1305 ⟨key⟩)
  else
    Except.error ()

/-- `chacha20_poly1305_seal` from the source: `Ok(aead(..., Sealing))`.
The outer `Option` models abnormal termination (a panic), the inner `Except`
the returned `Result`. -/
def chacha20_poly1305_seal (ks : Keystream) (fin : MacFinish) (key : KeyInner)
    (nonce ad in_out : Bytes) :
    Option (Except Unspecified (Bytes × Bytes)) :=
  (aead ks fin key nonce ad in_out Direction.Sealing).map Except.ok

/-- `chacha20_poly1305_open` from the source:
`Ok(aead(..., Opening { in_prefix_len }))`. -/
def chacha20_poly1305_open (ks : Keystream) (fin : MacFinish) (key : KeyInner)
    (nonce ad : Bytes) (in_prefix_len : Nat) (in_out : Bytes) :
    Option (Except Unspecified (Bytes × Bytes)) :=
  (aead ks fin key nonce ad in_out (Direction.Opening in_prefix_len)).map
    Except.ok

/-- Modelled from the spec: `aead::max_input_len(block_len, overhead)` (its
body is outside this slice); the spec pins the result for (64, 1) to
2^38 − 64 = 274,877,906,880 per RFC 7539 errata 4858. -/
def max_input_len (block_len overhead_blocks_per_nonce : Nat) : Nat :=
  (2 ^ 32 - overhead_blocks_per_nonce) * block_len

/-- `aead::AlgorithmID`. -/
inductive AlgorithmID where
  | CHACHA20_POLY1305 : AlgorithmID
deriving DecidableEq, Repr

/-- `aead::Algorithm`: the static descriptor record.  `sealOp` and `openOp`
stand for the source's `seal` and `open` fields (Lean keywords). -/
structure Algorithm where
  key_len : Nat
  init : Bytes → Except Unspecified KeyInner
  sealOp : KeyInner → Bytes → Bytes → Bytes →
    Option (Except Unspecified (Bytes × Bytes))
  openOp : KeyInner → Bytes → Bytes → Nat → Bytes →
    Option (Except Unspecified (Bytes × Bytes))
  id : AlgorithmID
  max_input_len : Nat

/-- The `CHACHA20_POLY1305` static descriptor, parameterized by the abstract
cipher and MAC collaborators. -/
def CHACHA20_POLY1305 (ks : Keystream) (fin : MacFinish) : Algorithm where
  key_len := KEY_LEN
  init := chacha20_poly1305_init
  sealOp := chacha20_poly1305_seal ks fin
  openOp := chacha20_poly1305_open ks fin
  id := AlgorithmID.CHACHA20_POLY1305
  max_input_len := max_input_len 64 1

/-- The spec-level padded decomposition of a byte sequence into MAC blocks:
whole 16-byte chunks, then — exactly when a remainder exists — one block of
the remainder right-padded with zeros. -/
def paddedBlocks (d : Bytes) : List Block :=
  chunks16 (d.take (d.length - d.length % BLOCK_LEN)) ++
    if d.length % BLOCK_LEN = 0 then []
    else [Block.copy_from_front Block.zero
      (d.drop (d.length - d.length % BLOCK_LEN))]

/-- A concrete (degenerate) keystream instance, for closed witnesses. -/
def ksZero : Keystream := fun _ _ _ _ => 0

/-- A concrete MAC-finish instance, for closed witnesses. -/
def finLen : MacFinish := fun _ ts => List.replicate 16 (ts.length % 256)

/-- A concrete 32-byte key, for closed witnesses. -/
def keyZero : KeyInner := KeyInner.ChaCha20Poly1305 ⟨List.replicate 32 0⟩

/-- A concrete 12-byte nonce, for closed witnesses. -/
def nonceZero : Bytes := List.replicate 12 0

/-! ### Helper lemmas -/

theorem length_xorStream (ks : Keystream) (key nonce : Bytes) (ctr : Nat) :
    ∀ (i : Nat) (l : Bytes), (xorStream ks key nonce ctr i l).length = l.length
  | _, [] => rfl
  | i, _ :: rest => by
    simp [xorStream, length_xorStream ks key nonce ctr (i + 1) rest]

theorem xorStream_xorStream (ks : Keystream) (key nonce : Bytes) (ctr : Nat) :
    ∀ (i : Nat) (l : Bytes),
      xorStream ks key nonce ctr i (xorStream ks key nonce ctr i l) = l
  | _, [] => rfl
  | i, b :: rest => by
    simp [xorStream, Nat.xor_cancel_right,
      xorStream_xorStream ks key nonce ctr (i + 1) rest]

theorem get_xorStream (ks : Keystream) (key nonce : Bytes) (ctr : Nat) :
    ∀ (i : Nat) (l : Bytes) (j : Nat) (h : j < l.length)
      (h' : j < (xorStream ks key nonce ctr i l).length),
      (xorStream ks key nonce ctr i l).get ⟨j, h'⟩ =
        l.get ⟨j, h⟩ ^^^ ksAt ks key nonce ctr (i + j)
  | _, [], j, h, _ => absurd h (by simp)
  | i, b :: rest, 0, _, _ => by simp [xorStream]
  | i, b :: rest, j + 1, h, h' => by
    have := get_xorStream ks key nonce ctr (i + 1) rest j
      (by simpa using Nat.lt_of_succ_lt_succ h)
      (by simpa [xorStream] using Nat.lt_of_succ_lt_succ h')
    simpa [xorStream, Nat.add_assoc, Nat.add_comm 1 j] using this

theorem xorStream_replicate_zero (ks : Keystream) (key nonce : Bytes)
    (ctr : Nat) : ∀ (m i : Nat),
    xorStream ks key nonce ctr i (List.replicate m 0) =
      (List.range m).map fun t => ksAt ks key nonce ctr (i + t)
  | 0, _ => rfl
  | m + 1, i => by
    rw [List.range_succ_eq_map, List.replicate_succ]
    simp only [xorStream, Nat.zero_xor, Nat.zero_xor, List.map_cons, List.map_map,
      xorStream_replicate_zero ks key nonce ctr m (i + 1)]
    refine congrArg₂ _ (by rw [Nat.add_zero]) ?_
    apply List.map_congr_left
    intro t _
    simp [Function.comp, Nat.add_assoc, Nat.add_comm 1 t]

theorem get?_xorStream (ks : Keystream) (key nonce : Bytes) (ctr : Nat) :
    ∀ (i j : Nat) (l : Bytes),
      (xorStream ks key nonce ctr j l).get? i =
        (l.get? i).map fun b => b ^^^ ksAt ks key nonce ctr (j + i)
  | _, _, [] => by simp [xorStream]
  | 0, j, b :: rest => by simp [xorStream]
  | i + 1, j, b :: rest => by
    have := get?_xorStream ks key nonce ctr i (j + 1) rest
    simpa [xorStream, Nat.add_assoc, Nat.add_comm 1 i] using this

theorem chunks16_nil : chunks16 [] = [] := by
  rw [chunks16]
  simp

theorem poly1305_update_padded_16_eq (ctx : Poly1305Context) (d : Bytes) :
    poly1305_update_padded_16 ctx d =
      ⟨ctx.otk, ctx.transcript ++ paddedBlocks d⟩ := by
  rw [poly1305_update_padded_16, paddedBlocks]
  rcases ctx with ⟨otk, ts⟩
  by_cases hw : d.length - d.length % BLOCK_LEN > 0 <;>
    by_cases hr : d.length % BLOCK_LEN > 0
  · simp [hw, hr, Poly1305Context.update_blocks, Poly1305Context.update_block,
      Nat.pos_iff_ne_zero.mp hr, List.append_assoc]
  · simp [hw, hr, Poly1305Context.update_blocks,
      Nat.eq_zero_of_not_pos hr]
    intro hd
    subst hd
    exact chunks16_nil
  · have hz : d.length - d.length % BLOCK_LEN = 0 := Nat.eq_zero_of_not_pos hw
    simp [hw, hr, Poly1305Context.update_block, hz, chunks16_nil,
      Nat.pos_iff_ne_zero.mp hr]
  · have hlen : d.length = 0 := by omega
    have hd : d = [] := List.eq_nil_of_length_eq_zero hlen
    subst hd
    simp [chunks16_nil]

theorem copy_from_front_zero (s : Bytes) :
    Block.copy_from_front Block.zero s =
      s ++ List.replicate (BLOCK_LEN - s.length) 0 := by
  rw [Block.copy_from_front, Block.zero, List.drop_replicate]

theorem derive_poly1305_key_eq (ks : Keystream) (key nonce : Bytes) :
    derive_poly1305_key ks key ⟨nonce, 0⟩ =
      (List.range 32).map fun i => ks key nonce 0 i := by
  rw [derive_poly1305_key, chacha20_xor_in_place]
  show xorStream ks key nonce 0 0 (List.replicate (KEY_BLOCKS * BLOCK_LEN) 0) = _
  rw [show KEY_BLOCKS * BLOCK_LEN = 32 from rfl,
    xorStream_replicate_zero ks key nonce 0 32 0]
  apply List.map_congr_left
  intro t ht
  have h32 : t < 32 := List.mem_range.mp ht
  simp [ksAt, Nat.div_eq_of_lt (by omega : t < 64),
    Nat.mod_eq_of_lt (by omega : t < 64)]

theorem aead_sealing_eq (ks : Keystream) (fin : MacFinish) (k : Key)
    (nonce ad pt : Bytes) :
    aead ks fin (KeyInner.ChaCha20Poly1305 k) nonce ad pt Direction.Sealing =
      some (xorStream ks k.bytes nonce 1 0 pt,
        fin (derive_poly1305_key ks k.bytes ⟨nonce, 0⟩)
          (paddedBlocks ad ++ paddedBlocks (xorStream ks k.bytes nonce 1 0 pt)
            ++ [Block.from_u64_le ad.length pt.length])) := by
  simp [aead, Counter.zero, Counter.increment, chacha20_xor_in_place,
    CounterOrIv.nonce, CounterOrIv.value, poly1305_update_padded_16_eq,
    Poly1305Context.from_key, Poly1305Context.update_block,
    Poly1305Context.finish, List.append_assoc]

theorem aead_opening_eq (ks : Keystream) (fin : MacFinish) (k : Key)
    (nonce ad in_out : Bytes) (p : Nat) (h : p ≤ in_out.length) :
    aead ks fin (KeyInner.ChaCha20Poly1305 k) nonce ad in_out
        (Direction.Opening p) =
      some (xorStream ks k.bytes nonce 1 0 (in_out.drop p) ++
          in_out.drop (in_out.length - p),
        fin (derive_poly1305_key ks k.bytes ⟨nonce, 0⟩)
          (paddedBlocks ad ++ paddedBlocks (in_out.drop p)
            ++ [Block.from_u64_le ad.length (in_out.length - p)])) := by
  simp [aead, Counter.zero, Counter.increment, sliceFrom, h,
    chacha20_xor_overlapping, poly1305_update_padded_16_eq,
    Poly1305Context.from_key, Poly1305Context.update_block,
    Poly1305Context.finish, List.append_assoc]

theorem aead_opening_oob (ks : Keystream) (fin : MacFinish) (k : KeyInner)
    (nonce ad in_out : Bytes) (p : Nat) (h : in_out.length < p) :
    aead ks fin k nonce ad in_out (Direction.Opening p) = none := by
  obtain ⟨kk⟩ := k
  simp [aead, sliceFrom, Nat.not_le.mpr h]

/-! ### Claims -/

/-- C1: for every key, 96-bit nonce, AAD and plaintext buffer, sealing and
then opening the resulting ciphertext with `in_prefix_len = 0` (same key,
nonce and AAD) restores the original plaintext exactly, and the tag returned
by `open` equals the tag returned by the matching `seal`. -/
theorem seal_open_round_trip (ks : Keystream) (fin : MacFinish) (k : KeyInner)
    (nonce ad pt : Bytes) :
    ∃ ct tag,
      chacha20_poly1305_seal ks fin k nonce ad pt =
        some (Except.ok (ct, tag)) ∧
      chacha20_poly1305_open ks fin k nonce ad 0 ct =
        some (Except.ok (pt, tag)) := by
  obtain ⟨kk⟩ := k
  refine ⟨xorStream ks kk.bytes nonce 1 0 pt,
    fin (derive_poly1305_key ks kk.bytes ⟨nonce, 0⟩)
      (paddedBlocks ad ++ paddedBlocks (xorStream ks kk.bytes nonce 1 0 pt)
        ++ [Block.from_u64_le ad.length pt.length]), ?_, ?_⟩
  · rw [chacha20_poly1305_seal, aead_sealing_eq]
    rfl
  · rw [chacha20_poly1305_open,
      aead_opening_eq ks fin kk nonce ad _ 0 (Nat.zero_le _)]
    simp [List.drop_length, xorStream_xorStream,
      length_xorStream ks kk.bytes nonce 1 0 pt]

/-- C7: `initialize` returns a key successfully iff the input is exactly 32
bytes; otherwise it fails with the single non-descriptive `Unspecified`
error, which carries no further detail. -/
theorem init_key_length (key : Bytes) :
    ((∃ k, chacha20_poly1305_init key = Except.ok k) ↔ key.length = 32) ∧
    (key.length ≠ 32 → chacha20_poly1305_init key = Except.error ()) := by
  refine ⟨⟨?_, ?_⟩, ?_⟩
  · rintro ⟨k, hk⟩
    by_contra h
    simp [chacha20_poly1305_init, KEY_LEN, h] at hk
  · intro h
    exact ⟨KeyInner.ChaCha20Poly1305 ⟨key⟩,
      by simp [chacha20_poly1305_init, KEY_LEN, h]⟩
  · intro h
    simp [chacha20_poly1305_init, KEY_LEN, h]

/-- Witness for C7 at the concrete lengths 32 (success) and 0 (failure). -/
theorem init_key_length_witness :
    (∃ k, chacha20_poly1305_init (List.replicate 32 0) = Except.ok k) ∧
    chacha20_poly1305_init [] = Except.error () :=
  ⟨(init_key_length (List.replicate 32 0)).1.mpr (by simp),
   (init_key_length []).2 (by simp)⟩

/-- C9: the algorithm descriptor declares `max_input_len` exactly
274,877,906,880 = 2^38 − 64 bytes and `key_len` exactly 32 bytes. -/
theorem descriptor_constants (ks : Keystream) (fin : MacFinish) :
    (CHACHA20_POLY1305 ks fin).max_input_len = 274877906880 ∧
    (CHACHA20_POLY1305 ks fin).key_len = 32 := by
  exact ⟨by norm_num [CHACHA20_POLY1305, max_input_len],
    by norm_num [CHACHA20_POLY1305, KEY_LEN]⟩

/-- C10: `open` has the unstated precondition `in_prefix_len ≤ buffer
length`; under it every slice access is in bounds and `open` returns a
result, while for `in_prefix_len` greater than the buffer length it does not
return an error value but aborts (an out-of-bounds slice panic, modelled as
`none`). -/
theorem open_prefix_len_precondition (ks : Keystream) (fin : MacFinish)
    (k : KeyInner) (nonce ad : Bytes) (p : Nat) (in_out : Bytes) :
    (p ≤ in_out.length → ∃ r,
      chacha20_poly1305_open ks fin k nonce ad p in_out =
        some (Except.ok r)) ∧
    (in_out.length < p →
      chacha20_poly1305_open ks fin k nonce ad p in_out = none) := by
  constructor
  · intro h
    obtain ⟨kk⟩ := k
    exact ⟨_, by rw [chacha20_poly1305_open,
      aead_opening_eq ks fin kk nonce ad in_out p h]; rfl⟩
  · intro h
    rw [chacha20_poly1305_open, aead_opening_oob ks fin k nonce ad in_out p h]
    rfl

/-- Witness for C10: with an empty buffer, prefix length 0 is in bounds and
returns a result; prefix length 1 aborts. -/
theorem open_prefix_len_precondition_witness :
    (∃ r, chacha20_poly1305_open ksZero finLen keyZero nonceZero [] 0 [] =
      some (Except.ok r)) ∧
    chacha20_poly1305_open ksZero finLen keyZero nonceZero [] 1 [] = none :=
  ⟨(open_prefix_len_precondition ksZero finLen keyZero nonceZero [] 0 []).1
      (by simp),
   (open_prefix_len_precondition ksZero finLen keyZero nonceZero [] 1 []).2
      (by simp)⟩

/-- C2: the bytes authenticated by the MAC are always the ciphertext:
in `open`, the transcript's middle section is the padded ciphertext portion
`buffer[in_prefix_len..]` as it stood on entry (before decryption); in
`seal`, it is the padded encrypted buffer (the resulting ciphertext), never
the plaintext. -/
theorem mac_input_is_ciphertext (ks : Keystream) (fin : MacFinish) (k : Key)
    (nonce ad : Bytes) :
    (∀ pt, ∃ ct tag,
      aead ks fin (KeyInner.ChaCha20Poly1305 k) nonce ad pt
          Direction.Sealing = some (ct, tag) ∧
      ct = xorStream ks k.bytes nonce 1 0 pt ∧
      tag = fin (derive_poly1305_key ks k.bytes ⟨nonce, 0⟩)
        (paddedBlocks ad ++ paddedBlocks ct ++
          [Block.from_u64_le ad.length pt.length])) ∧
    (∀ pre ct, ∃ buf tag,
      aead ks fin (KeyInner.ChaCha20Poly1305 k) nonce ad (pre ++ ct)
          (Direction.Opening pre.length) = some (buf, tag) ∧
      tag = fin (derive_poly1305_key ks k.bytes ⟨nonce, 0⟩)
        (paddedBlocks ad ++ paddedBlocks ct ++
          [Block.from_u64_le ad.length ct.length])) := by
  constructor
  · intro pt
    exact ⟨_, _, aead_sealing_eq ks fin k nonce ad pt, rfl, rfl⟩
  · intro pre ct
    refine ⟨_, _, aead_opening_eq ks fin k nonce ad (pre ++ ct) pre.length
      (by simp), ?_⟩
    rw [List.drop_left, List.length_append, Nat.add_sub_cancel_left]

/-- C3: in both `seal` and `open`, the Poly1305 one-time key is the keystream
of block counter 0 (the first 32 bytes of that block, under the call's key
and nonce), and the buffer is encrypted or decrypted with keystream starting
at block counter 1. -/
theorem counter_discipline (ks : Keystream) (fin : MacFinish) (k : Key)
    (nonce ad : Bytes) :
    (∀ pt, ∃ blocks ct,
      aead ks fin (KeyInner.ChaCha20Poly1305 k) nonce ad pt
          Direction.Sealing =
        some (ct, fin ((List.range 32).map fun i => ks k.bytes nonce 0 i)
          blocks) ∧
      ∀ i, ct.get? i =
        (pt.get? i).map fun b =>
          b ^^^ ks k.bytes nonce (1 + i / 64) (i % 64)) ∧
    (∀ pre ct, ∃ blocks buf,
      aead ks fin (KeyInner.ChaCha20Poly1305 k) nonce ad (pre ++ ct)
          (Direction.Opening pre.length) =
        some (buf, fin ((List.range 32).map fun i => ks k.bytes nonce 0 i)
          blocks) ∧
      ∀ i, (buf.take ct.length).get? i =
        (ct.get? i).map fun b =>
          b ^^^ ks k.bytes nonce (1 + i / 64) (i % 64)) := by
  constructor
  · intro pt
    refine ⟨_, _, by rw [aead_sealing_eq, derive_poly1305_key_eq], ?_⟩
    intro i
    rw [get?_xorStream ks k.bytes nonce 1 i 0 pt]
    simp [ksAt]
  · intro pre ct
    have hdrop : (pre ++ ct).drop pre.length = ct := List.drop_left pre ct
    refine ⟨_, _, by rw [aead_opening_eq ks fin k nonce ad (pre ++ ct)
      pre.length (by simp), derive_poly1305_key_eq], ?_⟩
    have htake :
        ((xorStream ks k.bytes nonce 1 0 ((pre ++ ct).drop pre.length) ++
          (pre ++ ct).drop ((pre ++ ct).length - pre.length)).take
            ct.length) = xorStream ks k.bytes nonce 1 0 ct := by
      rw [hdrop, List.take_left' (length_xorStream ks k.bytes nonce 1 0 ct)]
    intro i
    rw [htake, get?_xorStream ks k.bytes nonce 1 i 0 ct]
    simp [ksAt]

/-- C4: the final 16-byte block fed to the MAC is exactly
`LE64(len(AAD)) || LE64(ciphertext length)`, the ciphertext length being the
full buffer length for `seal` and `buffer.length − in_prefix_len` for
`open`. -/
theorem final_length_block (ks : Keystream) (fin : MacFinish) (k : Key)
    (nonce ad : Bytes) :
    (∀ pt, ∃ ct blocks,
      aead ks fin (KeyInner.ChaCha20Poly1305 k) nonce ad pt
          Direction.Sealing =
        some (ct, fin (derive_poly1305_key ks k.bytes ⟨nonce, 0⟩)
          (blocks ++ [le64 ad.length ++ le64 pt.length]))) ∧
    (∀ p in_out, p ≤ in_out.length → ∃ buf blocks,
      aead ks fin (KeyInner.ChaCha20Poly1305 k) nonce ad in_out
          (Direction.Opening p) =
        some (buf, fin (derive_poly1305_key ks k.bytes ⟨nonce, 0⟩)
          (blocks ++ [le64 ad.length ++ le64 (in_out.length - p)]))) := by
  constructor
  · intro pt
    exact ⟨_, paddedBlocks ad ++
        paddedBlocks (xorStream ks k.bytes nonce 1 0 pt),
      by rw [aead_sealing_eq]; rfl⟩
  · intro p in_out h
    exact ⟨_, paddedBlocks ad ++ paddedBlocks (in_out.drop p),
      by rw [aead_opening_eq ks fin k nonce ad in_out p h]; rfl⟩

/-- Witness for C4: the opening clause applied at prefix length 0 on an
empty buffer. -/
theorem final_length_block_witness :
    ∃ buf blocks,
      aead ksZero finLen keyZero nonceZero [] [] (Direction.Opening 0) =
        some (buf, finLen
          (derive_poly1305_key ksZero (List.replicate 32 0) ⟨nonceZero, 0⟩)
          (blocks ++ [le64 (List.length ([] : Bytes)) ++
            le64 (List.length ([] : Bytes) - 0)])) :=
  (final_length_block ksZero finLen ⟨List.replicate 32 0⟩ nonceZero []).2
    0 [] (by simp)

/-- C5: opening with `0 ≤ in_prefix_len ≤ buffer length` leaves, from offset
0, the plaintext of length `original length − in_prefix_len` obtained by
decrypting the bytes that sat at offsets `in_prefix_len..` on entry, and the
buffer keeps its original length (output overlapping the input region). -/
theorem open_overlapping_correct (ks : Keystream) (fin : MacFinish) (k : Key)
    (nonce ad pre ct : Bytes) :
    ∃ buf tag,
      chacha20_poly1305_open ks fin (KeyInner.ChaCha20Poly1305 k) nonce ad
          pre.length (pre ++ ct) = some (Except.ok (buf, tag)) ∧
      buf.length = (pre ++ ct).length ∧
      buf.take ((pre ++ ct).length - pre.length) =
        xorStream ks k.bytes nonce 1 0 ct := by
  refine ⟨_, _, by rw [chacha20_poly1305_open, aead_opening_eq ks fin k nonce
    ad (pre ++ ct) pre.length (by simp)]; rfl, ?_, ?_⟩
  · simp [length_xorStream, List.length_append]
    omega
  · rw [List.drop_left, List.length_append, Nat.add_sub_cancel_left,
      List.take_left']
    rw [length_xorStream]

/-- C6: the padding helper feeds `data` in whole 16-byte chunks and then,
exactly when `data.length % 16 ≠ 0`, one extra block holding the remainder
right-padded with zeros; it leaves the MAC key unchanged, and on a multiple
of 16 the result is identical to the whole-block path alone. -/
theorem update_padded_16_blocks (ctx : Poly1305Context) (data : Bytes) :
    (poly1305_update_padded_16 ctx data).otk = ctx.otk ∧
    (poly1305_update_padded_16 ctx data).transcript =
      ctx.transcript ++
        chunks16 (data.take (data.length - data.length % 16)) ++
        (if data.length % 16 = 0 then []
         else [data.drop (data.length - data.length % 16) ++
           List.replicate (16 - data.length % 16) 0]) ∧
    (data.length % 16 = 0 →
      poly1305_update_padded_16 ctx data = ctx.update_blocks data) := by
  refine ⟨by rw [poly1305_update_padded_16_eq], ?_, ?_⟩
  · rw [poly1305_update_padded_16_eq]
    show ctx.transcript ++ paddedBlocks data = _
    rw [paddedBlocks, copy_from_front_zero]
    by_cases h : data.length % 16 = 0
    · simp [BLOCK_LEN, h, List.append_assoc]
    · have hr : data.length - (data.length - data.length % 16) =
        data.length % 16 := by omega
      simp [BLOCK_LEN, h, List.append_assoc, List.length_drop, hr]
  · intro h
    rw [poly1305_update_padded_16_eq, paddedBlocks, BLOCK_LEN]
    simp [h, Poly1305Context.update_blocks]

/-- Witness for C6: the multiple-of-16 clause at an empty context and a
16-byte input. -/
theorem update_padded_16_blocks_witness :
    poly1305_update_padded_16 ⟨[], []⟩ (List.replicate 16 3) =
      Poly1305Context.update_blocks ⟨[], []⟩ (List.replicate 16 3) :=
  (update_padded_16_blocks ⟨[], []⟩ (List.replicate 16 3)).2.2 (by simp)

/-- C8 counterexample: `open` called with `in_prefix_len = 1` on an empty
buffer does not run to completion — it aborts (modelled as `none`), so
seal/open are not total over every `in_prefix_len`. -/
theorem seal_open_total_counterexample :
    chacha20_poly1305_open ksZero finLen keyZero nonceZero [] 1 [] = none := by
  rw [chacha20_poly1305_open,
    aead_opening_oob ksZero finLen keyZero nonceZero [] [] 1 (by simp)]
  rfl

/-- C8 (amended): for every key, nonce and AAD, `seal` always runs to
completion returning a mutated buffer and a tag, and so does `open` whenever
`in_prefix_len ≤ buffer length`; neither ever returns an error value, so the
initialization key-length error is the only error in the core. -/
theorem seal_open_no_failure (ks : Keystream) (fin : MacFinish) (k : KeyInner)
    (nonce ad : Bytes) :
    (∀ in_out, ∃ ct tag,
      chacha20_poly1305_seal ks fin k nonce ad in_out =
        some (Except.ok (ct, tag))) ∧
    (∀ p in_out, p ≤ in_out.length → ∃ pt tag,
      chacha20_poly1305_open ks fin k nonce ad p in_out =
        some (Except.ok (pt, tag))) := by
  obtain ⟨kk⟩ := k
  constructor
  · intro in_out
    exact ⟨_, _, by rw [chacha20_poly1305_seal, aead_sealing_eq]; rfl⟩
  · intro p in_out h
    exact ⟨_, _, by rw [chacha20_poly1305_open,
      aead_opening_eq ks fin kk nonce ad in_out p h]; rfl⟩

/-- Witness for C8's amended statement at concrete inputs. -/
theorem seal_open_no_failure_witness :
    (∃ ct tag, chacha20_poly1305_seal ksZero finLen keyZero nonceZero []
      [5, 6] = some (Except.ok (ct, tag))) ∧
    (∃ pt tag, chacha20_poly1305_open ksZero finLen keyZero nonceZero [] 1
      [7, 8] = some (Except.ok (pt, tag))) :=
  ⟨(seal_open_no_failure ksZero finLen keyZero nonceZero []).1 [5, 6],
   (seal_open_no_failure ksZero finLen keyZero nonceZero []).2 1 [7, 8]
     (by simp)⟩

end ChaCha20Poly1305
